import Mathlib

/-!
Verification development for the Threes! TD-learning agent
(`src/v2-TD_learning/agent.h` of lon5948/TCG-project-threes).

The agent's own code (`agent.h`) is embedded directly.  The board and
weight classes (`board.h`, `weight.h`) are not part of the sources at
hand; the operations the agent consumes from them (cell reads, the
symmetry transforms, the slide/place dynamics, and binary weight
persistence) are modelled from the specification, and each such
definition is marked accordingly.

Floating-point values are embedded as rationals (exact arithmetic); the
single place where IEEE semantics matters observably - the division
`result/count` in `Expectimax`, which produces NaN when `count == 0` -
is modelled explicitly with a NaN-carrying wrapper type `F`.
-/

/-- Modelled from the spec: a board is a 4 by 4 grid of small
non-negative integer ranks (0 = empty), as in `board.h`. -/
abbrev Board := Fin 4 → Fin 4 → ℕ

/-- Index reversal `i mod 3 - i` on `Fin 4`, the building block of the
symmetry transforms. -/
def rev (i : Fin 4) : Fin 4 := ⟨3 - i.val, by omega⟩

/-- Modelled from the spec: `board::rotate_clockwise`, the pure clockwise
quarter-turn; the cell at row `r`, column `c` of the rotated board is the
cell at row `3 - c`, column `r` of the original. -/
def rotate_clockwise (b : Board) : Board := fun r c => b (rev c) r

/-- Modelled from the spec: `board::reflect_horizontal`, the pure
left-right mirror; column `c` reads column `3 - c` of the original. -/
def reflect_horizontal (b : Board) : Board := fun r c => b r (rev c)

/-- The cell of `b` at flat position `p` (row `p / 4`, column `p % 4`),
as used by `b[row][column]` and `b(pos)` in `agent.h`; positions used by
the agent are all below 16. -/
def cellAt (b : Board) (p : ℕ) : ℕ := b ⟨p / 4 % 4, by omega⟩ ⟨p % 4, by omega⟩

/-- The tuple-descriptor table `feature` of `agent.h`: six ordered lists
of flat cell positions, the last two zero-padded to length 6 exactly as
the C++ aggregate initialization does. -/
def feature : Fin 6 → List ℕ :=
  ![[0, 1, 2, 3, 4, 5],
    [4, 5, 6, 7, 8, 9],
    [5, 6, 7, 9, 10, 11],
    [9, 10, 11, 13, 14, 15],
    [0, 1, 2, 4, 0, 0],
    [2, 5, 6, 9, 0, 0]]

/-- The number of positions of descriptor `ind` that
`CalculateFeatureIndex` reads: `featureSize2 = 4` when `ind > 3`, else
`featureSize = 6`, as in `agent.h`. -/
def featSize (ind : Fin 6) : ℕ := if 3 < ind.val then 4 else 6

/-- `tdLearning_slider::CalculateFeatureIndex` of `agent.h`: the running
value is multiplied by 20 and the rank at the descriptor's next position
is added, over the first `featSize ind` positions. -/
def CalculateFeatureIndex (b : Board) (ind : Fin 6) : ℕ :=
  (List.range (featSize ind)).foldl
    (fun value i => value * 20 + cellAt b ((feature ind).getD i 0)) 0

/-- The network of six weight tables (`net` of `weight_agent`), one per
tuple descriptor; a table is embedded as a total map from indices to
rational weights. -/
abbrev Net := Fin 6 → ℕ → ℚ

/-- A single `net[ind][idx] += u` write. -/
def pointUpdate (n : Net) (p : Fin 6 × ℕ) (u : ℚ) : Net :=
  fun t i => if t = p.1 ∧ i = p.2 then n t i + u else n t i

/-- `tdLearning_slider::CalculateBoardValue` of `agent.h`, mirroring the
in-place loop structure: for each of 4 rotations, rotate, then for each
of 2 reflections, reflect, then add the six table entries of the current
view; the accumulator threads the mutated board copy. -/
def CalculateBoardValue (net : Net) (before : Board) : ℚ :=
  ((List.range 4).foldl
    (fun (acc : ℚ × Board) _ =>
      let b1 := rotate_clockwise acc.2
      (List.range 2).foldl
        (fun (acc2 : ℚ × Board) _ =>
          let b2 := reflect_horizontal acc2.2
          ((List.finRange 6).foldl
            (fun v ind => v + net ind (CalculateFeatureIndex b2 ind)) acc2.1,
           b2))
        (acc.1, b1))
    (0, before)).1

/-- The eight board views visited, in order, by the nested
rotate/reflect loops shared by `CalculateBoardValue` and `train`. -/
def symViews (b : Board) : List Board :=
  let r1 := rotate_clockwise b
  let v1 := reflect_horizontal r1
  let v2 := reflect_horizontal v1
  let r2 := rotate_clockwise v2
  let v3 := reflect_horizontal r2
  let v4 := reflect_horizontal v3
  let r3 := rotate_clockwise v4
  let v5 := reflect_horizontal r3
  let v6 := reflect_horizontal v5
  let r4 := rotate_clockwise v6
  let v7 := reflect_horizontal r4
  let v8 := reflect_horizontal v7
  [v1, v2, v3, v4, v5, v6, v7, v8]

/-- The 48 `(table, index)` pairs touched for a board `b`, in the order
the nested loops of `CalculateBoardValue` and `train` enumerate them. -/
def updatePairs (b : Board) : List (Fin 6 × ℕ) :=
  (symViews b).flatMap
    (fun v => (List.finRange 6).map (fun ind => (ind, CalculateFeatureIndex v ind)))

/-- `tdLearning_slider::train` of `agent.h`: the step `vupdate` is
computed first from the current weights, then the nested rotate/reflect
loops write `net[ind][...] += vupdate` while mutating the member board
`prev` in place; the result is the final weights together with the final
state of `prev`. -/
def train (net : Net) (prev next : Board) (reward : ℤ) (alpha : ℚ) : Net × Board :=
  let vupdate : ℚ :=
    alpha * (if reward = -1 then -(CalculateBoardValue net prev)
             else CalculateBoardValue net next - CalculateBoardValue net prev + reward)
  (List.range 4).foldl
    (fun (acc : Net × Board) _ =>
      let p1 := rotate_clockwise acc.2
      (List.range 2).foldl
        (fun (acc2 : Net × Board) _ =>
          let p2 := reflect_horizontal acc2.2
          ((List.finRange 6).foldl
            (fun n ind => pointUpdate n (ind, CalculateFeatureIndex p2 ind) vupdate) acc2.1,
           p2))
        (acc.1, p1))
    (net, prev)

/-- Modelled from the spec: whether two ranks merge under the Threes
rule - the two lowest ranks (1 and 2) merge with each other, higher
ranks merge only with an equal rank. -/
def mergeable (x y : ℕ) : Bool :=
  (x = 1 && y = 2) || (x = 2 && y = 1) || (3 ≤ x && x = y)

/-- Modelled from the spec: the rank produced by a merge (1 with 2 gives
3; equal ranks give the next rank up). -/
def mergeRank (x y : ℕ) : ℕ := if 3 ≤ x && x = y then x + 1 else 3

/-- Modelled from the spec: the displayed value of a merged tile of rank
`t ≥ 3`, namely `3 * 2 ^ (t - 3)`; the reward of a slide is the sum of
the resulting merged-tile values. -/
def tileValue (t : ℕ) : ℕ := 3 * 2 ^ (t - 3)

/-- Modelled from the spec: one line of a Threes slide, cells listed
from the destination edge outward.  The head pair either pulls into an
empty cell or merges, and the hole then propagates outward so every
remaining cell shifts one step; otherwise the head stays and the rest of
the line slides.  Returns the new line and the merge reward. -/
def slideLine : List ℕ → List ℕ × ℕ
  | [] => ([], 0)
  | [x] => ([x], 0)
  | x :: y :: rest =>
    if x = 0 then (y :: rest ++ [0], 0)
    else if mergeable x y then
      (mergeRank x y :: rest ++ [0], tileValue (mergeRank x y))
    else
      let s := slideLine (y :: rest)
      (x :: s.1, s.2)

/-- The row and column of the `k`-th cell of line `l` for slide
direction `op` (0 = up, 1 = right, 2 = down, 3 = left), counted from the
destination edge. -/
def lineIdx : Fin 4 → Fin 4 → Fin 4 → Fin 4 × Fin 4 :=
  fun op l k =>
    match op with
    | 0 => (k, l)
    | 1 => (l, rev k)
    | 2 => (rev k, l)
    | 3 => (l, k)

/-- The line number and within-line index of the cell at row `r`,
column `c` for slide direction `op`; inverse of `lineIdx op`. -/
def cellCoord : Fin 4 → Fin 4 → Fin 4 → Fin 4 × Fin 4 :=
  fun op r c =>
    match op with
    | 0 => (c, r)
    | 1 => (r, rev c)
    | 2 => (c, rev r)
    | 3 => (r, c)

/-- Line `l` of board `b` for direction `op`, from the destination edge
outward. -/
def getLine (b : Board) (op l : Fin 4) : List ℕ :=
  (List.finRange 4).map (fun k => b (lineIdx op l k).1 (lineIdx op l k).2)

/-- Modelled from the spec: a game board as the agent consumes it - the
4 by 4 cell grid together with the previewed `hint` tile. -/
structure GBoard where
  cells : Board
  hint : ℕ
deriving DecidableEq

/-- Modelled from the spec: `board::slide(direction)` - every line of
the board slides toward the direction's edge under `slideLine`; the
reward is the sum of merged-tile values, or `-1` if no cell changed. -/
def slide (b : GBoard) (op : Fin 4) : GBoard × ℤ :=
  let cells' : Board := fun r c =>
    ((slideLine (getLine b.cells op (cellCoord op r c).1)).1).getD
      ((cellCoord op r c).2 : ℕ) 0
  let score : ℕ :=
    ((List.finRange 4).map (fun l => (slideLine (getLine b.cells op l)).2)).sum
  if cells' = b.cells then (b, -1) else ({ b with cells := cells' }, score)

/-- Modelled from the spec: `board::place(pos, tile, hint)` - writes
`tile` at flat position `pos` and records `hint` as the next previewed
tile. -/
def place (b : GBoard) (pos tile hint : ℕ) : GBoard :=
  { cells := fun r c => if r.val = pos / 4 % 4 ∧ c.val = pos % 4 then tile else b.cells r c,
    hint := hint }

/-- An IEEE float observed through the two behaviors that matter here:
a real value (embedded exactly as a rational) or NaN, the result of the
division `0.0f / 0` in `Expectimax`.  Any arithmetic with NaN yields
NaN, and ordered comparisons against NaN are false. -/
inductive F where
  | nan : F
  | val : ℚ → F
deriving DecidableEq

/-- The candidate insertion positions tried by `Expectimax` for each
slide direction, exactly the `pos` vectors of `agent.h`. -/
def posList : Fin 4 → List ℕ :=
  ![[12, 13, 14, 15], [0, 4, 8, 12], [0, 1, 2, 3], [3, 7, 11, 15]]

/-- The accumulator of `tdLearning_slider::Expectimax`: the running
`result` and `count` after scanning the four candidate cells.  For each
empty candidate, the hint tile is hypothetically placed there, the best
`reward + CalculateBoardValue` over the legal one-ply slides is taken
(tracked against the `-1e15` sentinel), and added into `result`. -/
def ExpectimaxAcc (net : Net) (after : GBoard) (op : Fin 4) : ℚ × ℕ :=
  (posList op).foldl
    (fun acc p =>
      if cellAt after.cells p ≠ 0 then acc
      else
        let b := place after p after.hint after.hint
        let valMax : ℚ :=
          (List.finRange 4).foldl
            (fun vm i =>
              let t := slide b i
              if t.2 = -1 then vm
              else max vm ((t.2 : ℚ) + CalculateBoardValue net t.1.cells))
            (-(10 : ℚ) ^ 15)
        (if -(10 : ℚ) ^ 15 < valMax then acc.1 + valMax else acc.1, acc.2 + 1))
    (0, 0)

/-- `tdLearning_slider::Expectimax` of `agent.h`: returns
`result / count` as a float; when `count = 0` this is the IEEE division
`0.0f / 0`, i.e. NaN. -/
def Expectimax (net : Net) (after : GBoard) (op : Fin 4) : F :=
  let a := ExpectimaxAcc net after op
  if a.2 = 0 then F.nan else F.val (a.1 / (a.2 : ℚ))

/-- The float score `reward + boardValue + expectValue` that
`SelectBestOp` computes for direction `op` (NaN whenever the expectimax
term is NaN). -/
def dirScoreF (net : Net) (before : GBoard) (op : Fin 4) : F :=
  match Expectimax net (slide before op).1 op with
  | F.nan => F.nan
  | F.val e =>
    F.val (((slide before op).2 : ℚ) + CalculateBoardValue net (slide before op).1.cells + e)

/-- One direction of the loop body of `tdLearning_slider::SelectBestOp`:
the direction is taken only when its reward is not `-1` and its score
compares strictly greater than `maxValue` - a comparison that is false
when the score is NaN. -/
def selStep (net : Net) (before : GBoard) (acc : ℤ × ℚ) (op : Fin 4) : ℤ × ℚ :=
  if (slide before op).2 ≠ -1 then
    match dirScoreF net before op with
    | F.nan => acc
    | F.val q => if acc.2 < q then (((op : ℕ) : ℤ), q) else acc
  else acc

/-- The fold state of `tdLearning_slider::SelectBestOp`: `bestop`
(initially `-1`) and `maxValue` (initially the float `-1e15`). -/
def SelectBestAcc (net : Net) (before : GBoard) : ℤ × ℚ :=
  (List.finRange 4).foldl (selStep net before) (-1, -(10 : ℚ) ^ 15)

/-- `tdLearning_slider::SelectBestOp` of `agent.h`. -/
def SelectBestOp (net : Net) (before : GBoard) : ℤ :=
  (SelectBestAcc net before).1

/-- The mutable members of `tdLearning_slider` that the episode state
machine touches: `firstFlag`, the boards `prev` and `next`, the weight
tables, and the learning rate `alpha` inherited from `weight_agent`. -/
structure TDState where
  firstFlag : Bool
  prev : GBoard
  next : GBoard
  net : Net
  alpha : ℚ

/-- What one `take_action` call passes to `train`: the member `prev` at
the moment of the call, the reward argument, and the board after the
selected slide (the afterstate when the move was legal). -/
structure StepLog where
  prevUsed : GBoard
  reward : ℤ
  after : GBoard
deriving DecidableEq

/-- A throwaway board used as the default of `List.getD`. -/
def defaultGB : GBoard := ⟨fun _ _ => 0, 0⟩

/-- A throwaway step log used as the default of `List.getD`. -/
def defaultLog : StepLog := ⟨defaultGB, 0, defaultGB⟩

/-- `tdLearning_slider::open_episode`: clears `firstFlag`. -/
def open_episode (s : TDState) : TDState := { s with firstFlag := false }

/-- `tdLearning_slider::take_action` of `agent.h`: on the first call of
an episode `prev` is set to the incoming board; the best direction is
selected and slid (a `bestop` of `-1` dispatches through
`opcode mod 4` as the underlying slide does, modelled from the spec);
on a legal move `next` is recorded, `train` runs, and the window shifts
`prev := next`; otherwise `train` runs with the `-1` sentinel. -/
def take_action (s : TDState) (before : GBoard) : TDState × StepLog :=
  let s1 := if s.firstFlag then s else { s with prev := before }
  let bestop := SelectBestOp s1.net before
  let opIdx : Fin 4 := ⟨(bestop % 4).toNat, by omega⟩
  let slid := slide before opIdx
  if slid.2 ≠ -1 then
    let s2 := { s1 with next := slid.1 }
    let tr := train s2.net s2.prev.cells s2.next.cells slid.2 s2.alpha
    let s3 := { s2 with net := tr.1, prev := { cells := tr.2, hint := s2.prev.hint } }
    ({ s3 with prev := s3.next, firstFlag := true },
     { prevUsed := s2.prev, reward := slid.2, after := slid.1 })
  else
    let tr := train s1.net s1.prev.cells s1.next.cells slid.2 s1.alpha
    ({ s1 with net := tr.1, prev := { cells := tr.2, hint := s1.prev.hint } },
     { prevUsed := s1.prev, reward := slid.2, after := slid.1 })

/-- An episode: the boards handed to successive `take_action` calls are
consumed in order, logging every `train` call. -/
def runEpisode : TDState → List GBoard → TDState × List StepLog
  | s, [] => (s, [])
  | s, b :: bs =>
    let st := take_action s b
    let rest := runEpisode st.1 bs
    (rest.1, st.2 :: rest.2)

/-- The afterstate of the most recent successful slide recorded in a
list of step logs, if any. -/
def lastSuccess (logs : List StepLog) : Option GBoard :=
  logs.foldl (fun acc l => if l.reward ≠ -1 then some l.after else acc) none

/-- The literal reading of the claim that `train` only ever bootstraps
from an agent afterstate: every non-terminal update's `prev` is the
afterstate of some earlier successful slide of the same episode, namely
the most recent one. -/
def ClaimPrevIsAfterstate (s0 : TDState) (bs : List GBoard) : Prop :=
  ∀ k, k < (runEpisode s0 bs).2.length →
    ((runEpisode s0 bs).2.getD k defaultLog).reward ≠ -1 →
      ∃ gb, lastSuccess ((runEpisode s0 bs).2.take k) = some gb ∧
        ((runEpisode s0 bs).2.getD k defaultLog).prevUsed = gb

/-- Modelled from the spec: the binary weight file - a 4-byte table
count followed by each table's raw weight values verbatim in declaration
order, with no per-table length field.  `weight_agent::save_weights`. -/
def save_weights (net : List (List ℚ)) : ℕ × List ℚ :=
  (net.length % 2 ^ 32, net.flatten)

/-- `std::vector::resize` on the table list: keeps the first `n` tables
and pads with freshly constructed (empty) ones. -/
def resizeNet (net : List (List ℚ)) (n : ℕ) : List (List ℚ) :=
  net.take n ++ List.replicate (n - net.length) []

/-- Modelled from the spec: streaming tables back in -
`for (weight& w : net) in >> w` - each table reads as many values as its
own current length from the remaining stream, since the file stores no
per-table length. -/
def readTables : List (List ℚ) → List ℚ → List (List ℚ)
  | [], _ => []
  | w :: ws, s => s.take w.length :: readTables ws (s.drop w.length)

/-- `weight_agent::load_weights` applied to an already opened file:
reads the 4-byte count, resizes `net`, then streams each table in. -/
def load_weights (file : ℕ × List ℚ) (net : List (List ℚ)) : List (List ℚ) :=
  readTables (resizeNet net file.1) file.2

/-- `weight_agent::load_weights` including the file-open check: when the
file cannot be opened the process exits with code `-1`
(`if (!in.is_open()) std::exit(-1)`), modelled as an `Except` whose
error carries the exit code; a normal return carries the loaded net. -/
def load_weights_run (file : Option (ℕ × List ℚ)) (net : List (List ℚ)) :
    Except ℤ (List (List ℚ)) :=
  match file with
  | none => Except.error (-1)
  | some f => Except.ok (load_weights f net)

/-- `lastSuccess` started from an arbitrary previously known afterstate,
the form the episode induction threads through. -/
def lastSuccessFrom (o : Option GBoard) (logs : List StepLog) : Option GBoard :=
  logs.foldl (fun acc l => if l.reward ≠ -1 then some l.after else acc) o

/-- The value of a big-endian base-20 digit string, the shape
`CalculateFeatureIndex` computes. -/
def natVal : List ℕ → ℕ
  | [] => 0
  | d :: t => d * 20 ^ t.length + natVal t

/-- The ranks of `b` at the positions of descriptor `ind`, in descriptor
order. -/
def digitsList (b : Board) (ind : Fin 6) : List ℕ :=
  (List.range (featSize ind)).map (fun i => cellAt b ((feature ind).getD i 0))

/-- A concrete test board: rank 1 at the top-left corner, rank 2 next to
it, all other cells empty. -/
def cexBoard : Board := fun r c =>
  if r = 0 ∧ c = 0 then 1 else if r = 0 ∧ c = 1 then 2 else 0

/-- `cexBoard` with rank 5 in the corner instead, for the
collision-freeness witness. -/
def cexBoardB : Board := fun r c =>
  if r = 0 ∧ c = 0 then 5 else cexBoard r c

/-- `cexBoard` packaged as a game board with hint tile 1. -/
def cexGBoard : GBoard := ⟨cexBoard, 1⟩

/-- The board with every cell holding rank 1: no insertion candidate is
empty, for any slide direction. -/
def fullOnes : GBoard := ⟨fun _ _ => 1, 1⟩

/-- The all-zero network. -/
def zeroNet : Net := fun _ _ => 0

/-- A network of hugely negative weights, driving every direction's
score below the `-1e15` sentinel of `SelectBestOp`. -/
def hugeNegNet : Net := fun _ _ => -(10 : ℚ) ^ 20

/-- A freshly opened episode state over the zero network with the
default learning rate `0.1 / 48`. -/
def tdS0 : TDState := ⟨false, cexGBoard, cexGBoard, zeroNet, 1 / 480⟩

/-- The almost-full test board: every cell holds rank 1 except the
bottom-right corner, which is empty.  Only the slides right and down are
legal, each with reward 0, and after either slide the freshly exposed
edge has exactly one empty cell whose hypothetical insertion leaves a
board with no legal slide at all. -/
def cexFull : Board := fun r c => if r = 3 ∧ c = 3 then 0 else 1

/-- `cexFull` packaged as a game board with hint tile 1. -/
def cexFullGB : GBoard := ⟨cexFull, 1⟩


lemma rev_rev (i : Fin 4) : rev (rev i) = i := by
  cases i with
  | mk v hv => simp only [rev]; congr 1; omega

lemma reflect_reflect (b : Board) :
    reflect_horizontal (reflect_horizontal b) = b := by
  funext r c
  simp only [reflect_horizontal, rev_rev]

lemma rotate_rotate (b : Board) (r c : Fin 4) :
    rotate_clockwise (rotate_clockwise b) r c = b (rev r) (rev c) := by
  simp only [rotate_clockwise, rev_rev]

lemma rotate_four (b : Board) :
    rotate_clockwise (rotate_clockwise (rotate_clockwise (rotate_clockwise b))) = b := by
  funext r c
  simp only [rotate_clockwise, rev_rev]

lemma symViews_eq (b : Board) :
    symViews b =
      [reflect_horizontal (rotate_clockwise b), rotate_clockwise b,
       reflect_horizontal (rotate_clockwise (rotate_clockwise b)),
       rotate_clockwise (rotate_clockwise b),
       reflect_horizontal (rotate_clockwise (rotate_clockwise (rotate_clockwise b))),
       rotate_clockwise (rotate_clockwise (rotate_clockwise b)),
       reflect_horizontal b, b] := by
  simp only [symViews, reflect_reflect, rotate_four]

lemma train_fst (net : Net) (prev next : Board) (reward : ℤ) (alpha : ℚ) :
    (train net prev next reward alpha).1 =
      (updatePairs prev).foldl
        (fun n p => pointUpdate n p
          (alpha * (if reward = -1 then -(CalculateBoardValue net prev)
                    else CalculateBoardValue net next - CalculateBoardValue net prev + reward)))
        net := by
  rfl

lemma train_snd (net : Net) (prev next : Board) (reward : ℤ) (alpha : ℚ) :
    (train net prev next reward alpha).2 = prev := by
  show reflect_horizontal (reflect_horizontal (rotate_clockwise
      (reflect_horizontal (reflect_horizontal (rotate_clockwise
      (reflect_horizontal (reflect_horizontal (rotate_clockwise
      (reflect_horizontal (reflect_horizontal (rotate_clockwise prev))))))))))) = prev
  simp only [reflect_reflect, rotate_four]

lemma foldl_add_map {α : Type} (l : List α) (f : α → ℚ) (a : ℚ) :
    l.foldl (fun v x => v + f x) a = a + (l.map f).sum := by
  induction l generalizing a with
  | nil => simp
  | cons x t ih => simp [ih, add_assoc]

lemma CBV_eq_sum (net : Net) (b : Board) :
    CalculateBoardValue net b = ((updatePairs b).map (fun p => net p.1 p.2)).sum := by
  show _ = _
  simp only [CalculateBoardValue, updatePairs, symViews, List.range_succ, List.range_zero,
    List.foldl_append, List.foldl_cons, List.foldl_nil, List.flatMap_cons, List.flatMap_nil,
    List.map_append, List.map_map, List.sum_append, List.append_nil]
  rw [show (List.finRange 6) = [0, 1, 2, 3, 4, 5] from rfl]
  simp only [List.foldl_cons, List.foldl_nil, List.map_cons, List.map_nil, List.sum_cons,
    List.sum_nil, Function.comp]
  ring

lemma foldl_pointUpdate_apply (L : List (Fin 6 × ℕ)) (net : Net) (u : ℚ) (t : Fin 6) (i : ℕ) :
    (L.foldl (fun n p => pointUpdate n p u) net) t i
      = net t i + (L.count (t, i) : ℚ) * u := by
  induction L generalizing net with
  | nil => simp
  | cons a L ih =>
    rw [List.foldl_cons, ih, List.count_cons]
    by_cases h : a = (t, i)
    · subst h
      simp [pointUpdate]
      ring
    · have h2 : ¬(t = a.1 ∧ i = a.2) := by
        intro hc
        exact h (Prod.ext hc.1.symm hc.2.symm)
      simp [pointUpdate, h2, h]

lemma updatePairs_length (b : Board) : (updatePairs b).length = 48 := by
  rfl

/-- C3: `train` adds `alpha * delta` to every touched entry, with
`delta = reward + V(next) - V(prev)` for a non-terminal reward and
`delta = -V(prev)` for the `-1` sentinel, and both values of `V` are
taken from the weights as they stood before any write of this update:
the final value of entry `(t, i)` is its old value plus its multiplicity
among the touched pairs times `alpha * delta` computed from the
pre-update net. -/
theorem train_td_step (net : Net) (prev next : Board) (reward : ℤ) (alpha : ℚ)
    (t : Fin 6) (i : ℕ) :
    (train net prev next reward alpha).1 t i
      = net t i + ((updatePairs prev).count (t, i) : ℚ) *
          (alpha * (if reward = -1 then -(CalculateBoardValue net prev)
                    else (reward : ℚ) + CalculateBoardValue net next
                          - CalculateBoardValue net prev)) := by
  rw [train_fst, foldl_pointUpdate_apply]
  by_cases h : reward = -1
  · simp only [if_pos h]
  · simp only [if_neg h]
    ring

/-- C10: after `train` returns, the member board `prev` holds exactly
the configuration it held on entry - the in-place 4-rotation,
2-reflection update loop composes to the identity. -/
theorem train_restores_prev (net : Net) (prev next : Board) (reward : ℤ) (alpha : ℚ) :
    (train net prev next reward alpha).2 = prev :=
  train_snd net prev next reward alpha

/-- C4: `CalculateBoardValue` sums the weight entries of exactly the
eight symmetry views (four clockwise rotations, each with and without a
horizontal reflection, in one fixed order, without deduplication), six
tuple descriptors each; and `train` writes its increment to exactly the
same 48 `(table, index)` pairs of `prev`, enumerated in the identical
order. -/
theorem value_and_train_share_enumeration (net : Net) (b prev next : Board)
    (reward : ℤ) (alpha : ℚ) :
    symViews b =
      [reflect_horizontal (rotate_clockwise b), rotate_clockwise b,
       reflect_horizontal (rotate_clockwise (rotate_clockwise b)),
       rotate_clockwise (rotate_clockwise b),
       reflect_horizontal (rotate_clockwise (rotate_clockwise (rotate_clockwise b))),
       rotate_clockwise (rotate_clockwise (rotate_clockwise b)),
       reflect_horizontal b, b]
    ∧ (updatePairs b).length = 48
    ∧ CalculateBoardValue net b = ((updatePairs b).map (fun p => net p.1 p.2)).sum
    ∧ (train net prev next reward alpha).1
        = (updatePairs prev).foldl
            (fun n p => pointUpdate n p
              (alpha * (if reward = -1 then -(CalculateBoardValue net prev)
                        else CalculateBoardValue net next
                              - CalculateBoardValue net prev + reward)))
            net :=
  ⟨symViews_eq b, updatePairs_length b, CBV_eq_sum net b,
    train_fst net prev next reward alpha⟩

lemma sum_map_add {α : Type} (l : List α) (f g : α → ℚ) :
    (l.map (fun x => f x + g x)).sum = (l.map f).sum + (l.map g).sum := by
  induction l with
  | nil => simp
  | cons x t ih => simp [ih]; ring

lemma sum_map_const {α : Type} (l : List α) (u : ℚ) :
    (l.map (fun _ => u)).sum = l.length * u := by
  induction l with
  | nil => simp
  | cons x t ih => simp [ih]; ring

lemma sum_map_le {α : Type} (l : List α) (f g : α → ℚ)
    (h : ∀ x ∈ l, f x ≤ g x) :
    (l.map f).sum ≤ (l.map g).sum := by
  induction l with
  | nil => simp
  | cons x t ih =>
    simp only [List.map_cons, List.sum_cons]
    have h1 := h x (List.mem_cons_self x t)
    have h2 := ih (fun y hy => h y (List.mem_cons_of_mem x hy))
    linarith

lemma CBV_const (c : ℚ) (b : Board) :
    CalculateBoardValue (fun _ _ => c) b = 48 * c := by
  rw [CBV_eq_sum]
  have h : (updatePairs b).map (fun p => (fun (_ : Fin 6) (_ : ℕ) => c) p.1 p.2)
      = (updatePairs b).map (fun _ => c) := rfl
  rw [h, sum_map_const, updatePairs_length]
  norm_num

lemma CBV_zero (b : Board) : CalculateBoardValue zeroNet b = 0 := by
  rw [show zeroNet = (fun _ _ => (0 : ℚ)) from rfl, CBV_const]
  norm_num

/-- C8: one `train` update with a positive learning rate and a positive
TD error strictly increases `CalculateBoardValue` of `prev`, everything
else held fixed. -/
theorem train_positive_delta_increases_value (net : Net) (prev next : Board)
    (reward : ℤ) (alpha : ℚ) (ha : 0 < alpha)
    (hd : 0 < (if reward = -1 then -(CalculateBoardValue net prev)
               else (reward : ℚ) + CalculateBoardValue net next
                     - CalculateBoardValue net prev)) :
    CalculateBoardValue net prev
      < CalculateBoardValue (train net prev next reward alpha).1 prev := by
  have hd' : 0 < (if reward = -1 then -(CalculateBoardValue net prev)
                  else CalculateBoardValue net next - CalculateBoardValue net prev + reward) := by
    by_cases h : reward = -1
    · simpa [h] using hd
    · have he : CalculateBoardValue net next - CalculateBoardValue net prev + (reward : ℚ)
          = (reward : ℚ) + CalculateBoardValue net next - CalculateBoardValue net prev := by
        ring
      rw [if_neg h, he]
      simpa [h] using hd
  set u : ℚ := alpha * (if reward = -1 then -(CalculateBoardValue net prev)
                        else CalculateBoardValue net next - CalculateBoardValue net prev + reward)
    with hu_def
  have hu : 0 < u := mul_pos ha hd'
  have key : ∀ p ∈ updatePairs prev,
      net p.1 p.2 + u ≤ (train net prev next reward alpha).1 p.1 p.2 := by
    intro p hp
    rw [train_fst, foldl_pointUpdate_apply, ← hu_def]
    have hc : 1 ≤ ((updatePairs prev).count (p.1, p.2)) := by
      have : (p.1, p.2) ∈ updatePairs prev := by
        simpa using hp
      exact List.count_pos_iff.mpr this
    have hc' : (1 : ℚ) ≤ ((updatePairs prev).count (p.1, p.2) : ℚ) := by
      exact_mod_cast hc
    nlinarith
  have hstep : ((updatePairs prev).map (fun p => net p.1 p.2 + u)).sum
      ≤ ((updatePairs prev).map
          (fun p => (train net prev next reward alpha).1 p.1 p.2)).sum :=
    sum_map_le _ _ _ key
  have hsplit : ((updatePairs prev).map (fun p => net p.1 p.2 + u)).sum
      = ((updatePairs prev).map (fun p => net p.1 p.2)).sum + 48 * u := by
    rw [sum_map_add]
    congr 1
    rw [sum_map_const, updatePairs_length]
    norm_num
  rw [CBV_eq_sum net prev, CBV_eq_sum (train net prev next reward alpha).1 prev]
  have h48 : (0 : ℚ) < 48 * u := by positivity
  linarith

/-- Witness for C8 at a concrete input: the zero network, the test
board, reward 1 and learning rate 1. -/
theorem train_positive_delta_increases_value_witness :
    0 < (1 : ℚ)
    ∧ 0 < (if (1 : ℤ) = -1 then -(CalculateBoardValue zeroNet cexBoard)
           else ((1 : ℤ) : ℚ) + CalculateBoardValue zeroNet cexBoard
                 - CalculateBoardValue zeroNet cexBoard)
    ∧ CalculateBoardValue zeroNet cexBoard
        < CalculateBoardValue (train zeroNet cexBoard cexBoard 1 1).1 cexBoard :=
  ⟨by norm_num,
    by rw [if_neg (by decide : ¬(1 : ℤ) = -1), CBV_zero]; norm_num,
    train_positive_delta_increases_value zeroNet cexBoard cexBoard 1 1
      (by norm_num)
      (by rw [if_neg (by decide : ¬(1 : ℤ) = -1), CBV_zero]; norm_num)⟩

lemma expectimax_slid1 (net : Net) :
    Expectimax net (slide cexFullGB 1).1 1 = F.val 0 := by
  have hacc : ExpectimaxAcc net (slide cexFullGB 1).1 1 = (0, 1) := by
    simp only [ExpectimaxAcc, show posList 1 = [0, 4, 8, 12] from rfl,
      List.foldl_cons, List.foldl_nil,
      show (slide cexFullGB 1).1.hint = 1 from by decide,
      show cellAt (slide cexFullGB 1).1.cells 0 = 1 from by decide,
      show cellAt (slide cexFullGB 1).1.cells 4 = 1 from by decide,
      show cellAt (slide cexFullGB 1).1.cells 8 = 1 from by decide,
      show cellAt (slide cexFullGB 1).1.cells 12 = 0 from by decide,
      show List.finRange 4 = [0, 1, 2, 3] from rfl,
      show (slide (place (slide cexFullGB 1).1 12 1 1) 0).2 = -1 from by decide,
      show (slide (place (slide cexFullGB 1).1 12 1 1) 1).2 = -1 from by decide,
      show (slide (place (slide cexFullGB 1).1 12 1 1) 2).2 = -1 from by decide,
      show (slide (place (slide cexFullGB 1).1 12 1 1) 3).2 = -1 from by decide]
    norm_num
  rw [Expectimax, hacc]
  norm_num

lemma expectimax_slid2 (net : Net) :
    Expectimax net (slide cexFullGB 2).1 2 = F.val 0 := by
  have hacc : ExpectimaxAcc net (slide cexFullGB 2).1 2 = (0, 1) := by
    simp only [ExpectimaxAcc, show posList 2 = [0, 1, 2, 3] from rfl,
      List.foldl_cons, List.foldl_nil,
      show (slide cexFullGB 2).1.hint = 1 from by decide,
      show cellAt (slide cexFullGB 2).1.cells 0 = 1 from by decide,
      show cellAt (slide cexFullGB 2).1.cells 1 = 1 from by decide,
      show cellAt (slide cexFullGB 2).1.cells 2 = 1 from by decide,
      show cellAt (slide cexFullGB 2).1.cells 3 = 0 from by decide,
      show List.finRange 4 = [0, 1, 2, 3] from rfl,
      show (slide (place (slide cexFullGB 2).1 3 1 1) 0).2 = -1 from by decide,
      show (slide (place (slide cexFullGB 2).1 3 1 1) 1).2 = -1 from by decide,
      show (slide (place (slide cexFullGB 2).1 3 1 1) 2).2 = -1 from by decide,
      show (slide (place (slide cexFullGB 2).1 3 1 1) 3).2 = -1 from by decide]
    norm_num
  rw [Expectimax, hacc]
  norm_num

lemma dirScore_zero_1 : dirScoreF zeroNet cexFullGB 1 = F.val 0 := by
  rw [dirScoreF, expectimax_slid1 zeroNet]
  rw [show (slide cexFullGB 1).2 = 0 from by decide, CBV_zero]
  norm_num

lemma dirScore_zero_2 : dirScoreF zeroNet cexFullGB 2 = F.val 0 := by
  rw [dirScoreF, expectimax_slid2 zeroNet]
  rw [show (slide cexFullGB 2).2 = 0 from by decide, CBV_zero]
  norm_num

lemma CBV_huge (b : Board) :
    CalculateBoardValue hugeNegNet b = -(48 * 10 ^ 20) := by
  rw [show hugeNegNet = (fun _ _ => -(10 : ℚ) ^ 20) from rfl, CBV_const]
  norm_num

lemma dirScore_huge_1 : dirScoreF hugeNegNet cexFullGB 1 = F.val (-(48 * 10 ^ 20)) := by
  rw [dirScoreF, expectimax_slid1 hugeNegNet]
  rw [show (slide cexFullGB 1).2 = 0 from by decide, CBV_huge]
  norm_num

lemma dirScore_huge_2 : dirScoreF hugeNegNet cexFullGB 2 = F.val (-(48 * 10 ^ 20)) := by
  rw [dirScoreF, expectimax_slid2 hugeNegNet]
  rw [show (slide cexFullGB 2).2 = 0 from by decide, CBV_huge]
  norm_num

lemma selectBestAcc_zero_eval : SelectBestAcc zeroNet cexFullGB = (1, 0) := by
  simp only [SelectBestAcc, show List.finRange 4 = [0, 1, 2, 3] from rfl,
    List.foldl_cons, List.foldl_nil, selStep,
    show (slide cexFullGB 0).2 = -1 from by decide,
    show (slide cexFullGB 1).2 = 0 from by decide,
    show (slide cexFullGB 2).2 = 0 from by decide,
    show (slide cexFullGB 3).2 = -1 from by decide,
    dirScore_zero_1, dirScore_zero_2]
  norm_num

lemma selectBestAcc_huge_eval :
    SelectBestAcc hugeNegNet cexFullGB = (-1, -(10 : ℚ) ^ 15) := by
  simp only [SelectBestAcc, show List.finRange 4 = [0, 1, 2, 3] from rfl,
    List.foldl_cons, List.foldl_nil, selStep,
    show (slide cexFullGB 0).2 = -1 from by decide,
    show (slide cexFullGB 1).2 = 0 from by decide,
    show (slide cexFullGB 2).2 = 0 from by decide,
    show (slide cexFullGB 3).2 = -1 from by decide,
    dirScore_huge_1, dirScore_huge_2]
  norm_num

/-- Counterexample for C6 as stated: on the almost-full board the slide
right is legal (reward 0), yet with hugely negative weights every legal
direction's score falls below the `-1e15` initialization of `maxValue`,
so `SelectBestOp` returns `-1` even though legal directions exist. -/
theorem selectbestop_misses_legal_direction :
    (slide cexFullGB 1).2 ≠ -1 ∧ SelectBestOp hugeNegNet cexFullGB = -1 :=
  ⟨by decide, by rw [SelectBestOp, selectBestAcc_huge_eval]⟩

lemma selStep_cases (net : Net) (before : GBoard) (acc : ℤ × ℚ) (op : Fin 4) :
    selStep net before acc op = acc
    ∨ ((slide before op).2 ≠ -1 ∧ ∃ q, dirScoreF net before op = F.val q
        ∧ acc.2 < q ∧ selStep net before acc op = (((op : ℕ) : ℤ), q)) := by
  unfold selStep
  by_cases hl : (slide before op).2 ≠ -1
  · rcases h : dirScoreF net before op with _ | q
    · simp [hl, h]
    · by_cases hq : acc.2 < q
      · right
        exact ⟨hl, q, rfl, hq, by simp [hl, hq]⟩
      · left
        simp [hl, hq]
  · left
    simp [hl]

lemma selStep_snd_le (net : Net) (before : GBoard) (acc : ℤ × ℚ) (op : Fin 4) :
    acc.2 ≤ (selStep net before acc op).2 := by
  rcases selStep_cases net before acc op with h | ⟨_, q, _, hq, h⟩
  · rw [h]
  · rw [h]
    exact le_of_lt hq

lemma selStep_step_dominates (net : Net) (before : GBoard) (acc : ℤ × ℚ) (op : Fin 4)
    (hl : (slide before op).2 ≠ -1) {q : ℚ} (h : dirScoreF net before op = F.val q) :
    q ≤ (selStep net before acc op).2 := by
  unfold selStep
  rw [if_pos hl, h]
  by_cases hq : acc.2 < q
  · simp [hq]
  · simp only [if_neg hq]
    exact le_of_not_lt hq

lemma foldl_selStep_snd_le (net : Net) (before : GBoard) (L : List (Fin 4)) (acc : ℤ × ℚ) :
    acc.2 ≤ (L.foldl (selStep net before) acc).2 := by
  induction L generalizing acc with
  | nil => simp
  | cons a t ih =>
    rw [List.foldl_cons]
    exact le_trans (selStep_snd_le net before acc a) (ih _)

lemma foldl_selStep_dominates (net : Net) (before : GBoard) (L : List (Fin 4))
    (op : Fin 4) (hl : (slide before op).2 ≠ -1) {q : ℚ}
    (h : dirScoreF net before op = F.val q) :
    ∀ acc : ℤ × ℚ, op ∈ L → q ≤ (L.foldl (selStep net before) acc).2 := by
  induction L with
  | nil => intro acc hop; cases hop
  | cons a t ih =>
    intro acc hop
    rw [List.foldl_cons]
    rcases List.mem_cons.mp hop with rfl | hmem
    · exact le_trans (selStep_step_dominates net before acc op hl h)
        (foldl_selStep_snd_le net before t _)
    · exact ih _ hmem

lemma foldl_selStep_provenance (net : Net) (before : GBoard) (L : List (Fin 4)) (acc : ℤ × ℚ) :
    (L.foldl (selStep net before) acc) = acc
    ∨ ∃ op ∈ L, (L.foldl (selStep net before) acc).1 = ((op : ℕ) : ℤ)
        ∧ (slide before op).2 ≠ -1
        ∧ dirScoreF net before op = F.val (L.foldl (selStep net before) acc).2
        ∧ acc.2 < (L.foldl (selStep net before) acc).2 := by
  induction L generalizing acc with
  | nil => left; rfl
  | cons a t ih =>
    rw [List.foldl_cons]
    rcases selStep_cases net before acc a with hstep | ⟨hl, qa, hsc, hlt, hstep⟩
    · rw [hstep]
      rcases ih acc with h | ⟨op, hmem, h1, h2, h3, h4⟩
      · left; exact h
      · right; exact ⟨op, List.mem_cons_of_mem a hmem, h1, h2, h3, h4⟩
    · rw [hstep]
      rcases ih (((a : ℕ) : ℤ), qa) with h | ⟨op, hmem, h1, h2, h3, h4⟩
      · right
        refine ⟨a, List.mem_cons_self a t, ?_, hl, ?_, ?_⟩
        · rw [h]
        · rw [h]; exact hsc
        · rw [h]; exact hlt
      · right
        exact ⟨op, List.mem_cons_of_mem a hmem, h1, h2, h3, lt_trans hlt h4⟩

lemma foldl_selStep_fst (net : Net) (before : GBoard) (L : List (Fin 4)) (acc : ℤ × ℚ) :
    (L.foldl (selStep net before) acc).1 = acc.1
    ∨ ∃ op ∈ L, (L.foldl (selStep net before) acc).1 = ((op : ℕ) : ℤ) := by
  rcases foldl_selStep_provenance net before L acc with h | ⟨op, hmem, h1, _, _, _⟩
  · left; rw [h]
  · right; exact ⟨op, hmem, h1⟩

lemma selStep_earlier (net : Net) (before : GBoard) (op : Fin 4)
    (pre post : List (Fin 4))
    (hsplit : List.finRange 4 = pre ++ op :: post)
    (hpre : ∀ op' ∈ pre, ((op' : ℕ) : ℤ) < ((op : ℕ) : ℤ))
    (hl : (slide before op).2 ≠ -1) {q : ℚ} (h : dirScoreF net before op = F.val q)
    (hlt : ((op : ℕ) : ℤ) < SelectBestOp net before) :
    q < (SelectBestAcc net before).2 := by
  have hSB : SelectBestAcc net before
      = post.foldl (selStep net before)
          (selStep net before
            (pre.foldl (selStep net before) (-1, -(10 : ℚ) ^ 15)) op) := by
    show (List.finRange 4).foldl (selStep net before) (-1, -(10 : ℚ) ^ 15) = _
    rw [hsplit, List.foldl_append, List.foldl_cons]
  have hqB : q ≤ (selStep net before
      (pre.foldl (selStep net before) (-1, -(10 : ℚ) ^ 15)) op).2 :=
    selStep_step_dominates net before _ op hl h
  rcases foldl_selStep_provenance net before post
      (selStep net before (pre.foldl (selStep net before) (-1, -(10 : ℚ) ^ 15)) op)
    with hres | ⟨op'', _, _, _, _, h4⟩
  · exfalso
    have hS : SelectBestOp net before
        = (selStep net before
            (pre.foldl (selStep net before) (-1, -(10 : ℚ) ^ 15)) op).1 := by
      show (SelectBestAcc net before).1 = _
      rw [hSB, hres]
    rcases selStep_cases net before
        (pre.foldl (selStep net before) (-1, -(10 : ℚ) ^ 15)) op
      with hc | ⟨_, qa, _, _, hc⟩
    · rw [hc] at hS
      rcases foldl_selStep_fst net before pre (-1, -(10 : ℚ) ^ 15) with hf | ⟨op', hmem, hf⟩
      · rw [hf] at hS
        have hop0 : (0 : ℤ) ≤ ((op : ℕ) : ℤ) := Int.ofNat_nonneg _
        omega
      · rw [hf] at hS
        have := hpre op' hmem
        omega
    · rw [hc] at hS
      simp only at hS
      omega
  · have hlt2 : (selStep net before
        (pre.foldl (selStep net before) (-1, -(10 : ℚ) ^ 15)) op).2
        < (SelectBestAcc net before).2 := by
      rw [hSB]; exact h4
    linarith

/-- C6 (amended): `SelectBestOp` scans the four directions in the fixed
order up, right, down, left, skipping those whose slide rewards `-1`,
scoring the rest as `reward + boardValue + expectValue`, and returning
the direction of strictly greatest score with ties resolved in favor of
the earliest direction; however a direction is selectable only when its
score is a real float strictly above the `-1e15` initialization of
`maxValue` (NaN scores never compare greater than anything), and `-1` is
returned whenever no selectable direction exists - not only when no
direction is legal.  Part one: the result is `-1` with `maxValue`
untouched, or a legal direction whose real score equals the final
`maxValue` and exceeds `-1e15`.  Part two: no legal real-scored
direction scores above the final `maxValue`.  Part three: legal
real-scored directions strictly earlier than the returned one score
strictly below it (the earliest-maximum tie-break). -/
theorem SelectBestOp_greedy_selection (net : Net) (before : GBoard) :
    ((SelectBestOp net before = -1
        ∧ (SelectBestAcc net before).2 = -(10 : ℚ) ^ 15)
      ∨ (∃ op : Fin 4, SelectBestOp net before = ((op : ℕ) : ℤ)
          ∧ (slide before op).2 ≠ -1
          ∧ dirScoreF net before op = F.val (SelectBestAcc net before).2
          ∧ -(10 : ℚ) ^ 15 < (SelectBestAcc net before).2))
    ∧ (∀ op : Fin 4, (slide before op).2 ≠ -1 →
        ∀ q : ℚ, dirScoreF net before op = F.val q →
          q ≤ (SelectBestAcc net before).2)
    ∧ (∀ op : Fin 4, (slide before op).2 ≠ -1 →
        ∀ q : ℚ, dirScoreF net before op = F.val q →
          ((op : ℕ) : ℤ) < SelectBestOp net before →
          q < (SelectBestAcc net before).2) := by
  refine ⟨?_, ?_, ?_⟩
  · rcases foldl_selStep_provenance net before (List.finRange 4) (-1, -(10 : ℚ) ^ 15)
      with h | ⟨op, _, h1, h2, h3, h4⟩
    · left
      constructor
      · show ((List.finRange 4).foldl (selStep net before) (-1, -(10 : ℚ) ^ 15)).1 = -1
        rw [h]
      · show ((List.finRange 4).foldl (selStep net before) (-1, -(10 : ℚ) ^ 15)).2
          = -(10 : ℚ) ^ 15
        rw [h]
    · right
      exact ⟨op, h1, h2, h3, h4⟩
  · intro op hl q h
    exact foldl_selStep_dominates net before (List.finRange 4) op hl h _
      (List.mem_finRange op)
  · intro op hl q h hlt
    fin_cases op
    · exact selStep_earlier net before 0 [] [1, 2, 3] rfl
        (by intro x hx; simp at hx) hl h hlt
    · exact selStep_earlier net before 1 [0] [2, 3] rfl
        (by intro x hx; fin_cases hx <;> decide) hl h hlt
    · exact selStep_earlier net before 2 [0, 1] [3] rfl
        (by intro x hx; fin_cases hx <;> decide) hl h hlt
    · exact selStep_earlier net before 3 [0, 1, 2] [] rfl
        (by intro x hx; fin_cases hx <;> decide) hl h hlt

/-- Witness for the amended C6 at a concrete input: on the almost-full
board with the zero network, the slide right is legal with real score 0
above `-1e15`, so by the maximality part its score is bounded by the
final `maxValue` of the scan. -/
theorem SelectBestOp_greedy_selection_witness :
    (slide cexFullGB 1).2 ≠ -1
    ∧ dirScoreF zeroNet cexFullGB 1 = F.val 0
    ∧ (0 : ℚ) ≤ (SelectBestAcc zeroNet cexFullGB).2 :=
  ⟨by decide, dirScore_zero_1,
    (SelectBestOp_greedy_selection zeroNet cexFullGB).2.1 1 (by decide) 0 dirScore_zero_1⟩

/-- C1 (code bug): on an afterstate whose four candidate insertion cells
are all occupied, `Expectimax` counts zero candidates and returns the
IEEE division `0.0f / 0`, i.e. NaN - not the value 0 the specification
prescribes. -/
theorem expectimax_full_edge_is_nan :
    ((posList 0).all (fun p => cellAt fullOnes.cells p != 0)) = true
    ∧ (ExpectimaxAcc zeroNet fullOnes 0).2 = 0
    ∧ Expectimax zeroNet fullOnes 0 = F.nan
    ∧ Expectimax zeroNet fullOnes 0 ≠ F.val 0 := by
  refine ⟨by decide, by decide, ?_, ?_⟩
  · rw [Expectimax, show (ExpectimaxAcc zeroNet fullOnes 0).2 = 0 from by decide]
    simp
  · rw [Expectimax, show (ExpectimaxAcc zeroNet fullOnes 0).2 = 0 from by decide]
    simp

lemma runEpisode_length (bs : List GBoard) :
    ∀ s : TDState, (runEpisode s bs).2.length = bs.length := by
  induction bs with
  | nil => intro s; rfl
  | cons b t ih =>
    intro s
    simp only [runEpisode, List.length_cons]
    rw [ih]


lemma take_action_spec (s : TDState) (b : GBoard) :
    (take_action s b).2.prevUsed = (if s.firstFlag then s.prev else b)
    ∧ ((take_action s b).2.reward ≠ -1 →
        (take_action s b).1.firstFlag = true
        ∧ (take_action s b).1.prev = (take_action s b).2.after)
    ∧ ((take_action s b).2.reward = -1 →
        (take_action s b).1.firstFlag = s.firstFlag
        ∧ (take_action s b).1.prev = (if s.firstFlag then s.prev else b)) := by
  unfold take_action
  by_cases hf : s.firstFlag
  · simp only [hf, if_true]
    by_cases hr : (slide b ⟨((SelectBestOp s.net b) % 4).toNat, by omega⟩ : GBoard × ℤ).2 ≠ -1
    · simp only [if_pos hr]
      exact ⟨trivial, fun _ => ⟨trivial, trivial⟩, fun hc => absurd hc hr⟩
    · simp only [if_neg hr, train_snd]
      push_neg at hr
      exact ⟨trivial, fun hc => absurd hr hc, fun _ => ⟨trivial, trivial⟩⟩
  · simp only [hf, Bool.false_eq_true, if_false]
    by_cases hr : (slide b ⟨((SelectBestOp (s.net) b) % 4).toNat, by omega⟩ : GBoard × ℤ).2 ≠ -1
    · simp only [if_pos hr]
      exact ⟨trivial, fun _ => ⟨trivial, trivial⟩, fun hc => absurd hc hr⟩
    · simp only [if_neg hr, train_snd]
      push_neg at hr
      exact ⟨trivial, fun hc => absurd hr hc, fun _ => ⟨trivial, trivial⟩⟩

lemma lastSuccessFrom_cons (o : Option GBoard) (l : StepLog) (t : List StepLog) :
    lastSuccessFrom o (l :: t)
      = lastSuccessFrom (if l.reward ≠ -1 then some l.after else o) t := rfl

lemma runEpisode_prevUsed (bs : List GBoard) :
    ∀ (s : TDState) (o : Option GBoard),
      (s.firstFlag = true ↔ o.isSome = true) →
      (∀ gb, o = some gb → s.prev = gb) →
      ∀ k, k < (runEpisode s bs).2.length →
        ((runEpisode s bs).2.getD k defaultLog).prevUsed
          = (lastSuccessFrom o ((runEpisode s bs).2.take k)).getD (bs.getD k defaultGB) := by
  induction bs with
  | nil =>
    intro s o _ _ k hk
    simp [runEpisode] at hk
  | cons b bs ih =>
    intro s o hiff hprev k hk
    have hrun : (runEpisode s (b :: bs)).2
        = (take_action s b).2 :: (runEpisode (take_action s b).1 bs).2 := by
      simp only [runEpisode]
    rcases k with _ | k
    · rw [hrun]
      simp only [List.getD_cons_zero, List.take_zero, List.getD_cons_zero]
      have hpu := (take_action_spec s b).1
      by_cases hf : s.firstFlag
      · have hsome : o.isSome = true := hiff.mp hf
        obtain ⟨gb, hgb⟩ := Option.isSome_iff_exists.mp hsome
        rw [hpu, if_pos hf, hprev gb hgb, hgb]
        rfl
      · have : o = none := by
          cases o with
          | none => rfl
          | some gb =>
            exfalso
            exact hf (hiff.mpr rfl)
        subst this
        rw [hpu, if_neg hf]
        rfl
    · rw [hrun]
      simp only [List.getD_cons_succ, List.take_succ_cons, lastSuccessFrom_cons,
        List.getD_cons_succ]
      have hk' : k < (runEpisode (take_action s b).1 bs).2.length := by
        rw [hrun] at hk
        simpa using hk
      by_cases hr : (take_action s b).2.reward = -1
      · have hs := ((take_action_spec s b).2.2) hr
        simp only [if_neg (not_not.mpr hr)]
        apply ih (take_action s b).1 o _ _ k hk'
        · rw [hs.1]; exact hiff
        · intro gb hgb
          rw [hs.2]
          have hsome : o.isSome = true := by rw [hgb]; rfl
          have hf : s.firstFlag = true := hiff.mpr hsome
          rw [if_pos hf]
          exact hprev gb hgb
      · have hs := ((take_action_spec s b).2.1) hr
        simp only [if_pos hr]
        apply ih (take_action s b).1 (some (take_action s b).2.after) _ _ k hk'
        · simp [hs.1]
        · intro gb hgb
          rw [hs.2]
          exact Option.some.inj hgb

/-- C2 (amended): in every episode, a non-terminal `train` update
bootstraps from the afterstate of the most recent successful slide of
the episode when one exists; before any successful slide - in
particular at each episode's first update - `prev` instead holds the
raw board passed to `take_action`, a post-insertion state rather than an
agent afterstate. -/
theorem train_bootstraps_from_last_afterstate (s0 : TDState) (bs : List GBoard)
    (h0 : s0.firstFlag = false) (k : ℕ)
    (hk : k < (runEpisode s0 bs).2.length)
    (hnt : ((runEpisode s0 bs).2.getD k defaultLog).reward ≠ -1) :
    ((runEpisode s0 bs).2.getD k defaultLog).prevUsed
      = (lastSuccess ((runEpisode s0 bs).2.take k)).getD (bs.getD k defaultGB) :=
  runEpisode_prevUsed bs s0 none (by simp [h0]) (by intro gb h; cases h) k hk

lemma selectBestOp_zero_eval : SelectBestOp zeroNet cexFullGB = 1 := by
  rw [SelectBestOp, selectBestAcc_zero_eval]

set_option maxHeartbeats 1000000 in
lemma take_action_tdS0_log :
    (take_action tdS0 cexFullGB).2 = ⟨cexFullGB, 0, (slide cexFullGB 1).1⟩ := by
  have h1 : SelectBestOp tdS0.net cexFullGB = 1 := selectBestOp_zero_eval
  simp only [take_action, show tdS0.firstFlag = false from rfl, Bool.false_eq_true,
    if_false, show ({ tdS0 with prev := cexFullGB } : TDState).net = tdS0.net from rfl, h1]
  rw [if_pos (show (slide cexFullGB ⟨(((1 : ℤ)) % 4).toNat, by omega⟩).2 ≠ -1 from by decide)]
  have hsl : slide cexFullGB (⟨(((1 : ℤ)) % 4).toNat, by omega⟩ : Fin 4)
      = slide cexFullGB 1 := rfl
  rw [hsl, show (slide cexFullGB 1).2 = 0 from by decide]

/-- Counterexample for C2 as stated: in a fresh episode on the
almost-full board, the very first `take_action` performs a non-terminal
update whose `prev` is the raw input board - but no agent slide has
happened yet in the episode, so `prev` is not the afterstate of any
previous slide. -/
theorem first_update_not_from_afterstate :
    ¬ ClaimPrevIsAfterstate tdS0 [cexFullGB] := by
  intro h
  have hlen : 0 < (runEpisode tdS0 [cexFullGB]).2.length := by
    rw [runEpisode_length]
    norm_num
  have hlog : ((runEpisode tdS0 [cexFullGB]).2.getD 0 defaultLog)
      = ⟨cexFullGB, 0, (slide cexFullGB 1).1⟩ := by
    show ((take_action tdS0 cexFullGB).2 :: _).getD 0 defaultLog = _
    rw [List.getD_cons_zero, take_action_tdS0_log]
  have hnt : ((runEpisode tdS0 [cexFullGB]).2.getD 0 defaultLog).reward ≠ -1 := by
    rw [hlog]
    decide
  obtain ⟨gb, hgb, _⟩ := h 0 hlen hnt
  rw [List.take_zero] at hgb
  cases hgb

/-- Witness for the amended C2 at a concrete input: the first update of
the episode is non-terminal and uses the raw input board, which is the
`getD` default since no successful slide precedes it. -/
theorem train_bootstraps_witness :
    tdS0.firstFlag = false
    ∧ 0 < (runEpisode tdS0 [cexFullGB]).2.length
    ∧ ((runEpisode tdS0 [cexFullGB]).2.getD 0 defaultLog).reward ≠ -1
    ∧ ((runEpisode tdS0 [cexFullGB]).2.getD 0 defaultLog).prevUsed
        = (lastSuccess ((runEpisode tdS0 [cexFullGB]).2.take 0)).getD
            ([cexFullGB].getD 0 defaultGB) := by
  have hlen : 0 < (runEpisode tdS0 [cexFullGB]).2.length := by
    rw [runEpisode_length]
    norm_num
  have hlog : ((runEpisode tdS0 [cexFullGB]).2.getD 0 defaultLog)
      = ⟨cexFullGB, 0, (slide cexFullGB 1).1⟩ := by
    show ((take_action tdS0 cexFullGB).2 :: _).getD 0 defaultLog = _
    rw [List.getD_cons_zero, take_action_tdS0_log]
  have hnt : ((runEpisode tdS0 [cexFullGB]).2.getD 0 defaultLog).reward ≠ -1 := by
    rw [hlog]
    decide
  exact ⟨rfl, hlen, hnt,
    train_bootstraps_from_last_afterstate tdS0 [cexFullGB] rfl 0 hlen hnt⟩

lemma foldl_mul_add (l : List ℕ) :
    ∀ v : ℕ, l.foldl (fun value d => value * 20 + d) v = v * 20 ^ l.length + natVal l := by
  induction l with
  | nil => intro v; simp [natVal]
  | cons d t ih =>
    intro v
    rw [List.foldl_cons, ih, natVal]
    ring_nf
    rw [List.length_cons]
    ring

lemma natVal_lt (l : List ℕ) (h : ∀ d ∈ l, d < 20) : natVal l < 20 ^ l.length := by
  induction l with
  | nil => simp [natVal]
  | cons d t ih =>
    rw [natVal, List.length_cons, pow_succ]
    have hd : d < 20 := h d (List.mem_cons_self d t)
    have ht : natVal t < 20 ^ t.length := ih (fun x hx => h x (List.mem_cons_of_mem d hx))
    calc d * 20 ^ t.length + natVal t
        < d * 20 ^ t.length + 20 ^ t.length := by omega
      _ = (d + 1) * 20 ^ t.length := by ring
      _ ≤ 20 * 20 ^ t.length := by
          have : d + 1 ≤ 20 := hd
          exact Nat.mul_le_mul_right _ this
      _ = 20 ^ t.length * 20 := by ring

lemma natVal_inj (l1 : List ℕ) :
    ∀ l2 : List ℕ, l1.length = l2.length →
      (∀ d ∈ l1, d < 20) → (∀ d ∈ l2, d < 20) →
      natVal l1 = natVal l2 → l1 = l2 := by
  induction l1 with
  | nil =>
    intro l2 hlen _ _ _
    cases l2 with
    | nil => rfl
    | cons d t => simp at hlen
  | cons d1 t1 ih =>
    intro l2 hlen h1 h2 hv
    cases l2 with
    | nil => simp at hlen
    | cons d2 t2 =>
      have hlen' : t1.length = t2.length := by simpa using hlen
      rw [natVal, natVal, hlen'] at hv
      have hv1 : natVal t1 < 20 ^ t2.length := by
        rw [← hlen']
        exact natVal_lt t1 (fun x hx => h1 x (List.mem_cons_of_mem d1 hx))
      have hv2 : natVal t2 < 20 ^ t2.length := by
        exact natVal_lt t2 (fun x hx => h2 x (List.mem_cons_of_mem d2 hx))
      have hd : d1 = d2 := by
        rcases Nat.lt_trichotomy d1 d2 with h | h | h
        · exfalso
          have : d1 * 20 ^ t2.length + natVal t1 < d2 * 20 ^ t2.length + natVal t2 := by
            calc d1 * 20 ^ t2.length + natVal t1
                < d1 * 20 ^ t2.length + 20 ^ t2.length := by omega
              _ = (d1 + 1) * 20 ^ t2.length := by ring
              _ ≤ d2 * 20 ^ t2.length := Nat.mul_le_mul_right _ h
              _ ≤ d2 * 20 ^ t2.length + natVal t2 := Nat.le_add_right _ _
          omega
        · exact h
        · exfalso
          have : d2 * 20 ^ t2.length + natVal t2 < d1 * 20 ^ t2.length + natVal t1 := by
            calc d2 * 20 ^ t2.length + natVal t2
                < d2 * 20 ^ t2.length + 20 ^ t2.length := by omega
              _ = (d2 + 1) * 20 ^ t2.length := by ring
              _ ≤ d1 * 20 ^ t2.length := Nat.mul_le_mul_right _ h
              _ ≤ d1 * 20 ^ t2.length + natVal t1 := Nat.le_add_right _ _
          omega
      subst hd
      have ht : t1 = t2 := by
        apply ih t2 hlen'
          (fun x hx => h1 x (List.mem_cons_of_mem d1 hx))
          (fun x hx => h2 x (List.mem_cons_of_mem d1 hx))
        omega
      rw [ht]

lemma CFI_eq_natVal (b : Board) (ind : Fin 6) :
    CalculateFeatureIndex b ind = natVal (digitsList b ind) := by
  rw [CalculateFeatureIndex, digitsList, ← List.foldl_map
    (fun i => cellAt b ((feature ind).getD i 0)) (fun value d => value * 20 + d)]
  rw [foldl_mul_add]
  simp

lemma digitsList_length (b : Board) (ind : Fin 6) :
    (digitsList b ind).length = featSize ind := by
  rw [digitsList, List.length_map, List.length_range]

lemma digitsList_getD (b : Board) (ind : Fin 6) (i : ℕ) (hi : i < featSize ind) :
    (digitsList b ind).getD i 0 = cellAt b ((feature ind).getD i 0) := by
  rw [digitsList, List.getD_eq_getElem?_getD, List.getElem?_map]
  rw [List.getElem?_range hi]
  rfl

lemma natVal_sum (l : List ℕ) :
    natVal l = ∑ j ∈ Finset.range l.length, l.getD (l.length - 1 - j) 0 * 20 ^ j := by
  induction l with
  | nil => simp [natVal]
  | cons d t ih =>
    rw [natVal, List.length_cons, Finset.sum_range_succ]
    have h1 : (d :: t).getD (t.length + 1 - 1 - t.length) 0 = d := by
      simp
    rw [h1, ih]
    have h2 : ∀ j ∈ Finset.range t.length,
        (d :: t).getD (t.length + 1 - 1 - j) 0 * 20 ^ j
          = t.getD (t.length - 1 - j) 0 * 20 ^ j := by
      intro j hj
      rw [Finset.mem_range] at hj
      have : t.length + 1 - 1 - j = (t.length - 1 - j) + 1 := by omega
      rw [this, List.getD_cons_succ]
    rw [Finset.sum_congr rfl h2]
    ring

lemma digitsList_lt (b : Board) (ind : Fin 6) (hb : ∀ r c, b r c < 20) :
    ∀ d ∈ digitsList b ind, d < 20 := by
  intro d hd
  rw [digitsList, List.mem_map] at hd
  obtain ⟨i, _, hdi⟩ := hd
  rw [← hdi, cellAt]
  exact hb _ _

/-- C5: for boards with all ranks below 20, `CalculateFeatureIndex` is
the mixed-radix positional key of the ranks at the descriptor's
positions in base 20 - the sum of `rank * 20 ^ j` over the positions
enumerated from last to first - so it is strictly below
`20 ^ featSize ind` (`20 ^ 6` for the four 6-tuples, `20 ^ 4` for the
two 4-tuples) and collision-free: boards differing in rank at some
position of the descriptor receive different keys. -/
theorem feature_index_mixed_radix (b b' : Board) (ind : Fin 6) (i : ℕ)
    (hb : ∀ r c, b r c < 20) (hb' : ∀ r c, b' r c < 20)
    (hi : i < featSize ind)
    (hne : cellAt b ((feature ind).getD i 0) ≠ cellAt b' ((feature ind).getD i 0)) :
    CalculateFeatureIndex b ind
      = ∑ j ∈ Finset.range (featSize ind),
          cellAt b ((feature ind).getD (featSize ind - 1 - j) 0) * 20 ^ j
    ∧ CalculateFeatureIndex b ind < 20 ^ featSize ind
    ∧ CalculateFeatureIndex b ind ≠ CalculateFeatureIndex b' ind := by
  have hdl := digitsList_lt b ind hb
  have hdl' := digitsList_lt b' ind hb'
  refine ⟨?_, ?_, ?_⟩
  · rw [CFI_eq_natVal, natVal_sum, digitsList_length]
    apply Finset.sum_congr rfl
    intro j hj
    rw [Finset.mem_range] at hj
    rw [digitsList_getD b ind _ (by omega)]
  · rw [CFI_eq_natVal]
    have := natVal_lt (digitsList b ind) hdl
    rwa [digitsList_length] at this
  · intro hc
    rw [CFI_eq_natVal, CFI_eq_natVal] at hc
    have heq : digitsList b ind = digitsList b' ind :=
      natVal_inj _ _ (by rw [digitsList_length, digitsList_length]) hdl hdl' hc
    have : (digitsList b ind).getD i 0 = (digitsList b' ind).getD i 0 := by rw [heq]
    rw [digitsList_getD b ind i hi, digitsList_getD b' ind i hi] at this
    exact hne this

/-- Witness for C5 at a concrete input: two boards differing in the
corner rank, descriptor 0, position 0. -/
theorem feature_index_mixed_radix_witness :
    (∀ r c, cexBoard r c < 20)
    ∧ (∀ r c, cexBoardB r c < 20)
    ∧ 0 < featSize 0
    ∧ cellAt cexBoard ((feature 0).getD 0 0) ≠ cellAt cexBoardB ((feature 0).getD 0 0)
    ∧ (CalculateFeatureIndex cexBoard 0
        = ∑ j ∈ Finset.range (featSize 0),
            cellAt cexBoard ((feature 0).getD (featSize 0 - 1 - j) 0) * 20 ^ j
      ∧ CalculateFeatureIndex cexBoard 0 < 20 ^ featSize 0
      ∧ CalculateFeatureIndex cexBoard 0 ≠ CalculateFeatureIndex cexBoardB 0) :=
  ⟨by decide, by decide, by decide, by decide,
    feature_index_mixed_radix cexBoard cexBoardB 0 0
      (by decide) (by decide) (by decide) (by decide)⟩

lemma readTables_flatten (pre net : List (List ℚ))
    (hshape : List.Forall₂ (fun w t => w.length = t.length) pre net) :
    readTables pre net.flatten = net := by
  induction hshape with
  | nil => rfl
  | cons hwt hrest ih =>
    rw [List.flatten_cons, readTables, hwt]
    congr 1
    · exact List.take_left _ _
    · rw [List.drop_left]
      exact ih

/-- C7: saving a net writes the 4-byte table count followed by each
table's raw values in declaration order, and loading that output into an
agent whose tables already have the intended lengths (the file stores no
per-table length) restores the same number of tables with identical
values. -/
theorem save_load_roundtrip (net pre : List (List ℚ))
    (hcount : net.length < 2 ^ 32)
    (hshape : List.Forall₂ (fun w t => w.length = t.length) pre net) :
    load_weights (save_weights net) pre = net := by
  have hlen : pre.length = net.length := List.Forall₂.length_eq hshape
  rw [save_weights, load_weights, Nat.mod_eq_of_lt hcount, resizeNet, hlen,
    Nat.sub_self, List.replicate_zero, List.append_nil, ← hlen, List.take_length]
  exact readTables_flatten pre net hshape

/-- Witness for C7 at a concrete input: a two-table net round-trips
through an agent whose tables are pre-sized to match. -/
theorem save_load_roundtrip_witness :
    ([[1], [2, 3]] : List (List ℚ)).length < 2 ^ 32
    ∧ List.Forall₂ (fun (w t : List ℚ) => w.length = t.length)
        [[5], [6, 7]] [[1], [2, 3]]
    ∧ load_weights (save_weights [[1], [2, 3]]) [[5], [6, 7]] = [[1], [2, 3]] :=
  ⟨by norm_num,
    by refine List.Forall₂.cons rfl (List.Forall₂.cons rfl List.Forall₂.nil),
    save_load_roundtrip [[1], [2, 3]] [[5], [6, 7]] (by norm_num)
      (by refine List.Forall₂.cons rfl (List.Forall₂.cons rfl List.Forall₂.nil))⟩

/-- C9: `load_weights` on a file that cannot be opened exits the process
with code `-1`: it never returns normally and in particular never falls
back to any net of freshly initialized weights. -/
theorem load_weights_missing_file_aborts (net : List (List ℚ)) :
    load_weights_run none net = Except.error (-1)
    ∧ ∀ result : List (List ℚ), load_weights_run none net ≠ Except.ok result :=
  ⟨rfl, fun _ h => Except.noConfusion h⟩
